import Mathlib

/-!
Verification of the Low-Code API Builder: a shallow embedding of the
frontend workflow editor (ConfigPanel.jsx, CustomNodes.jsx, Sidebar.jsx,
WorkflowEditor.jsx, EditorPage.jsx) together with the workflow engine
core modelled from the system specification where the backend sources
are not part of the frontend tree.
-/

namespace APIBuilder

/-- JSON-like dynamic values, as manipulated by the editor and engine. -/
inductive Json where
| null : Json
| bool : Bool → Json
| num : Int → Json
| str : String → Json
| arr : List Json → Json
| obj : List (String × Json) → Json

/-- JavaScript truthiness of a JSON value: null, false, 0 and the empty
string are falsy; arrays and objects are always truthy. -/
def Json.truthy : Json → Bool
| .null => false
| .bool b => b
| .num n => n != 0
| .str s => s != ""
| .arr _ => true
| .obj _ => true

/-- Keys of a JSON object, in declaration order; empty for non-objects. -/
def Json.objKeys : Json → List String
| .obj fields => fields.map Prod.fst
| _ => []

/-- Field access on a JSON object. -/
def Json.getField (j : Json) (key : String) : Option Json :=
match j with
| .obj fields => fields.lookup key
| _ => none

/-- View a JSON value as a string scalar. -/
def Json.asStr : Json → Option String
| .str s => some s
| _ => none

/-- View a JSON value as an array of string scalars. -/
def Json.asStrList : Json → Option (List String)
| .arr xs => xs.mapM Json.asStr
| _ => none

/-- Block metadata from `BLOCK_TYPES` in CustomNodes.jsx: each palette
entry carries its type tag, icon, label, description and default config. -/
structure BlockMeta where
  type : String
  icon : String
  label : String
  description : String
  defaultConfig : Json

/-- The `BLOCK_TYPES` table of CustomNodes.jsx, keyed by block type. -/
def BLOCK_TYPES : List (String × BlockMeta) :=
[ ("input",
   { type := "input", icon := "📥", label := "Input",
     description := "Define request schema",
     defaultConfig := .obj [("schema",
       .obj [("name", .str "string"), ("value", .str "number")])] }),
  ("db_query",
   { type := "db_query", icon := "🗄️", label := "Database Query",
     description := "Query MongoDB collection",
     defaultConfig := .obj [("collection", .str "items"),
       ("operation", .str "find"), ("query", .obj []),
       ("data", .obj []), ("limit", .num 100)] }),
  ("api_call",
   { type := "api_call", icon := "🌐", label := "API Call",
     description := "Call external API",
     defaultConfig := .obj [("url", .str "https://api.example.com/data"),
       ("method", .str "GET"), ("headers", .obj []),
       ("body", .obj []), ("timeout", .num 30)] }),
  ("logic",
   { type := "logic", icon := "⚡", label := "Logic",
     description := "Conditional branching",
     defaultConfig := .obj [("condition", .str "true"),
       ("true_value", .obj [("result", .str "condition met")]),
       ("false_value", .obj [("result", .str "condition not met")])] }),
  ("transform",
   { type := "transform", icon := "🔄", label := "Transform",
     description := "Transform data fields",
     defaultConfig := .obj [("operations",
       .arr [.obj [("type", .str "set"), ("field", .str "processed"),
                   ("value", .str "true")]]),
       ("input_ref", .null)] }),
  ("output",
   { type := "output", icon := "📤", label := "Output",
     description := "Define API response",
     defaultConfig := .obj [("status_code", .num 200),
       ("body", .obj [("message", .str "Success"),
                      ("data", .str "\x7b\x7b_last_output\x7d\x7d")]),
       ("headers", .obj [])] }) ]

/-- The sidebar palette order from Sidebar.jsx. -/
def BLOCK_ORDER : List String :=
["input", "db_query", "api_call", "logic", "transform", "output"]

/-- Names of the per-type config form renderers of ConfigPanel.jsx. -/
inductive ConfigRenderer where
| renderInputConfig
| renderDbQueryConfig
| renderApiCallConfig
| renderLogicConfig
| renderTransformConfig
| renderOutputConfig
deriving DecidableEq

/-- The `configRenderers` dispatch table of ConfigPanel.jsx. -/
def configRenderers : List (String × ConfigRenderer) :=
[ ("input", .renderInputConfig),
  ("db_query", .renderDbQueryConfig),
  ("api_call", .renderApiCallConfig),
  ("logic", .renderLogicConfig),
  ("transform", .renderTransformConfig),
  ("output", .renderOutputConfig) ]

/-- The React Flow node components exported by CustomNodes.jsx. -/
inductive NodeComponent where
| InputNode
| DbQueryNode
| ApiCallNode
| LogicNode
| TransformNode
| OutputNode
deriving DecidableEq

/-- The `nodeTypes` dispatch table of CustomNodes.jsx. -/
def nodeTypes : List (String × NodeComponent) :=
[ ("input", .InputNode),
  ("db_query", .DbQueryNode),
  ("api_call", .ApiCallNode),
  ("logic", .LogicNode),
  ("transform", .TransformNode),
  ("output", .OutputNode) ]

/-- Operation choices offered by the db_query operation select in
`renderDbQueryConfig` of ConfigPanel.jsx. -/
def dbQueryOperationOptions : List String :=
["find", "find_one", "insert", "update", "delete"]

/-- Config fields rendered by `renderDbQueryConfig` for a given operation:
collection, operation and query always; data only for insert and update;
limit only for find. -/
def renderDbQueryFields (operation : String) : List String :=
["collection", "operation", "query"]
  ++ (if ["insert", "update"].contains operation then ["data"] else [])
  ++ (if ["find"].contains operation then ["limit"] else [])

/-- Field list rendered by `renderLogicConfig` in ConfigPanel.jsx. -/
def renderLogicFields : List String :=
["condition", "true_value", "false_value"]

/-- The `parseJSON` helper of ConfigPanel.jsx: try JSON.parse and return
the original string on failure.  `jsonParse` stands for the platform
JSON.parse builtin, which may throw; the result is an `Except` so that
"never raising" is expressible. -/
def parseJSON (jsonParse : String → Except String Json) (s : String) :
    Except String Json :=
match jsonParse s with
| .ok v => .ok v
| .error _ => .ok (.str s)

/-- The JavaScript String() coercion used as the `toJSON` fallback,
modelled as a total rendering of a JSON value. -/
def jsString : Json → String
| .null => "null"
| .bool true => "true"
| .bool false => "false"
| .num n => toString n
| .str s => s
| .arr _ => ""
| .obj _ => "[object Object]"

/-- The `toJSON` helper of ConfigPanel.jsx: strings pass through, other
values go through JSON.stringify with a String() fallback on failure.
`jsonStringify` stands for the platform JSON.stringify builtin. -/
def toJSON (jsonStringify : Json → Except String String) (val : Json) :
    Except String String :=
match val with
| .str s => .ok s
| v =>
  match jsonStringify v with
  | .ok s => .ok s
  | .error _ => .ok (jsString v)

/-- A canvas coordinate pair. -/
structure Position where
  x : Int
  y : Int
deriving DecidableEq

/-- A persisted workflow block as consumed by `blockToNode`; optional
fields model JS properties that may be absent. -/
structure Block where
  id : String
  type : String
  label : Option String
  position : Option Position
  config : Option Json

/-- The `data` payload of a React Flow node as built by `blockToNode`. -/
structure NodeData where
  type : String
  label : String
  config : Json

/-- A React Flow node as built by `blockToNode`. -/
structure Node where
  id : String
  type : String
  position : Position
  data : NodeData

/-- A persisted workflow connection as consumed by `connToEdge`. -/
structure Connection where
  id : Option String
  source_block_id : String
  target_block_id : String
  source_handle : Option String
  target_handle : Option String
deriving DecidableEq

/-- A React Flow edge as built by `connToEdge`; the constant style and
marker settings are presentational and carried by `animated` alone. -/
structure Edge where
  id : String
  source : String
  target : String
  sourceHandle : String
  targetHandle : String
  animated : Bool
deriving DecidableEq

/-- JavaScript `a || b` for two strings: `a` when non-empty, else `b`. -/
def orStr (a b : String) : String :=
if a ≠ "" then a else b

/-- JavaScript `a || b` for an optional string field: the field when
present and truthy (non-empty), else `b`. -/
def orElseStr (a : Option String) (b : String) : String :=
match a with
| some s => if s ≠ "" then s else b
| none => b

/-- JavaScript `a || b` for an optional JSON field: the field when
present and truthy, else `b`. -/
def orElseJson (a : Option Json) (b : Json) : Json :=
match a with
| some v => if v.truthy then v else b
| none => b

/-- `blockToNode` from WorkflowEditor.jsx: convert a workflow block to a
React Flow node, defaulting position, label and config exactly as the
JS `||` chains do. -/
def blockToNode (block : Block) : Node :=
{ id := block.id
  type := block.type
  position := block.position.getD { x := 250, y := 100 }
  data :=
  { type := block.type
    label := orElseStr block.label
      (orElseStr ((BLOCK_TYPES.lookup block.type).map BlockMeta.label) "Block")
    config := orElseJson block.config
      (orElseJson ((BLOCK_TYPES.lookup block.type).map BlockMeta.defaultConfig)
        (.obj [])) } }

/-- `connToEdge` from WorkflowEditor.jsx: convert a workflow connection
to a React Flow edge with defaulted id and handles. -/
def connToEdge (conn : Connection) : Edge :=
{ id := orElseStr conn.id
    ("edge_" ++ conn.source_block_id ++ "_" ++ conn.target_block_id)
  source := conn.source_block_id
  target := conn.target_block_id
  sourceHandle := orElseStr conn.source_handle "output"
  targetHandle := orElseStr conn.target_handle "input"
  animated := true }

/-- `nodesToBlocks` from WorkflowEditor.jsx: convert React Flow nodes
back to workflow blocks. -/
def nodesToBlocks (rfNodes : List Node) : List Block :=
rfNodes.map fun node =>
  { id := node.id
    type := orStr node.data.type node.type
    label := some node.data.label
    position := some node.position
    config := some node.data.config }

/-- `edgesToConnections` from WorkflowEditor.jsx: convert React Flow
edges back to workflow connections. -/
def edgesToConnections (rfEdges : List Edge) : List Connection :=
rfEdges.map fun edge =>
  { id := some edge.id
    source_block_id := edge.source
    target_block_id := edge.target
    source_handle := some (orStr edge.sourceHandle "output")
    target_handle := some (orStr edge.targetHandle "input") }

/-- The node-list mapper inside `onUpdateConfig` of WorkflowEditor.jsx:
replace the matching node's data.config (and data.label when a label is
given), leaving every other node untouched. -/
def onUpdateConfig (nodes : List Node) (nodeId : String) (newConfig : Json)
    (newLabel : Option String) : List Node :=
nodes.map fun node =>
  if node.id = nodeId then
    { node with data :=
      { node.data with
        config := newConfig
        label := match newLabel with
                 | some l => l
                 | none => node.data.label } }
  else node

/-- Canvas state held by WorkflowEditor.jsx: the node and edge lists. -/
structure EditorState where
  nodes : List Node
  edges : List Edge

/-- `onUpdateConfig` as a state update: it calls only setNodes, so the
edge list is carried over unchanged. -/
def applyUpdateConfig (st : EditorState) (nodeId : String) (newConfig : Json)
    (newLabel : Option String) : EditorState :=
{ st with nodes := onUpdateConfig st.nodes nodeId newConfig newLabel }

/-- A persisted workflow as shown by EditorPage.jsx and Dashboard.jsx. -/
structure Workflow where
  name : String
  description : String
  blocks : List Block
  connections : List Connection
  status : String

/-- The status invariant: a workflow is either a draft or deployed. -/
def statusInvariant (w : Workflow) : Prop :=
w.status = "draft" ∨ w.status = "deployed"

/-- `handleDeploy` of EditorPage.jsx: set the status to deployed. -/
def handleDeploy (w : Workflow) : Workflow :=
{ w with status := "deployed" }

/-- `handleUndeploy` of EditorPage.jsx: set the status to draft. -/
def handleUndeploy (w : Workflow) : Workflow :=
{ w with status := "draft" }

/-- `handleSave` of EditorPage.jsx: replace blocks and connections,
leaving the status untouched. -/
def handleSave (w : Workflow) (blocks : List Block)
    (connections : List Connection) : Workflow :=
{ w with blocks := blocks, connections := connections }

/-- Modelled from the spec: workflow creation (backend models/workflow.py
is not part of the frontend tree) starts a workflow as a draft. -/
def createWorkflow (name description : String) : Workflow :=
{ name := name, description := description, blocks := [],
  connections := [], status := "draft" }

/-- Modelled from the spec: the closed set of block kinds (§3); the
engine itself (backend workflow_engine.py) is not part of the frontend
tree. -/
inductive Kind where
| intake
| datastore_query
| outbound_call
| conditional
| transform
| respond
deriving DecidableEq

/-- A block as seen by the Graph Planner: an id and a kind. -/
structure PlanBlock where
  id : String
  kind : Kind
deriving DecidableEq

/-- A directed connection between block ids. -/
structure PlanConn where
  source : String
  target : String
deriving DecidableEq

/-- Modelled from the spec (§4.1): structural failures of `plan`. -/
inductive GraphError where
| cycle (blockId : String)
| danglingEdge
| noResponse
deriving DecidableEq

/-- Modelled from the spec (§4.1): a block is ready when no connection
into it still has its source among the remaining blocks — the in-degree
restricted to the remaining blocks is zero. -/
def ready (conns : List PlanConn) (remaining : List PlanBlock)
    (b : PlanBlock) : Bool :=
conns.all fun c =>
  c.target != b.id || remaining.all fun b2 => b2.id != c.source

/-- Modelled from the spec (§4.1): Kahn's algorithm with level grouping.
Each round emits every ready remaining block as one level; if no block
is ready while some remain, the graph has a cycle.  The fuel bounds the
number of rounds; `plan` supplies the block count, which suffices. -/
def kahnAux (conns : List PlanConn) :
    Nat → List PlanBlock → Except GraphError (List (List String))
| _, [] => .ok []
| 0, b :: _ => .error (.cycle b.id)
| fuel + 1, b :: rest =>
  let remaining := b :: rest
  let level := remaining.filter (ready conns remaining)
  if level.isEmpty then .error (.cycle b.id)
  else
    match kahnAux conns fuel
        (remaining.filter fun x => !(ready conns remaining x)) with
    | .ok levels => .ok (level.map PlanBlock.id :: levels)
    | .error e => .error e

/-- Modelled from the spec (§4.1): `plan(blocks, connections)` checks for
dangling edges and a missing respond block, then runs Kahn's algorithm. -/
def plan (blocks : List PlanBlock) (conns : List PlanConn) :
    Except GraphError (List (List String)) :=
if !(conns.all fun c =>
      (blocks.any fun b => b.id == c.source)
        && blocks.any fun b => b.id == c.target) then
  .error .danglingEdge
else if !(blocks.any fun b => decide (b.kind = Kind.respond)) then
  .error .noResponse
else
  kahnAux conns blocks.length blocks

/-- One connection step between block ids. -/
def edgeRel (conns : List PlanConn) (x y : String) : Prop :=
∃ c ∈ conns, c.source = x ∧ c.target = y

/-- Acyclicity of the connection graph: no nonempty directed path
returns to its starting block id. -/
def Acyclic (conns : List PlanConn) : Prop :=
∀ x, ¬ Relation.TransGen (edgeRel conns) x x

/-- Modelled from the spec (§4.3): the transform block's operation
variants with their fixed shapes; the transform handler (backend
workflow_engine.py) is not part of the frontend tree. -/
inductive TransformOp where
| rename (from_ to_ : String)
| pick (fields : List String)
| set (field : String) (value : Json)
| delete (field : String)
| merge (with_ : Json)
| filter_array (field : String) (predicate : String)

/-- The transform operation type tags, as documented by the spec. -/
def transformOpTypes : List String :=
["rename", "pick", "set", "delete", "merge", "filter_array"]

/-- Modelled from the spec (§4.3): decode one generic JSON operation
object into a typed transform operation, rejecting unknown types and
malformed shapes. -/
def decodeTransformOp (j : Json) : Option TransformOp := do
  let t ← (j.getField "type").bind Json.asStr
  match t with
  | "rename" => do
      let f ← (j.getField "from").bind Json.asStr
      let tgt ← (j.getField "to").bind Json.asStr
      pure (.rename f tgt)
  | "pick" => do
      let fs ← (j.getField "fields").bind Json.asStrList
      pure (.pick fs)
  | "set" => do
      let f ← (j.getField "field").bind Json.asStr
      let v ← j.getField "value"
      pure (.set f v)
  | "delete" => do
      let f ← (j.getField "field").bind Json.asStr
      pure (.delete f)
  | "merge" => do
      let w ← j.getField "with"
      pure (.merge w)
  | "filter_array" => do
      let f ← (j.getField "field").bind Json.asStr
      let p ← (j.getField "predicate").bind Json.asStr
      pure (.filter_array f p)
  | _ => none

/-- Modelled from the spec (§4.3): schema entry of the intake block;
the intake handler (backend workflow_engine.py) is not part of the
frontend tree. -/
structure SchemaField where
  name : String
  type : String
  required : Bool
deriving DecidableEq

/-- The declared field types supported by the intake block. -/
def fieldTypes : List String :=
["string", "number", "boolean", "array", "object"]

/-- Modelled from the spec: check one payload value against a declared
type name; unknown type names match nothing. -/
def typeMatches (t : String) (v : Json) : Bool :=
match t, v with
| "string", .str _ => true
| "number", .num _ => true
| "boolean", .bool _ => true
| "array", .arr _ => true
| "object", .obj _ => true
| _, _ => false

/-- Modelled from the spec (§4.3): intake validation failures. -/
inductive ValidationError where
| missingRequired (field : String)
| typeMismatch (field : String)
deriving DecidableEq

/-- Modelled from the spec (§4.3): the intake handler validates the
inbound payload's fields against the schema; on success the output is
the payload itself. -/
def runIntake (schema : List SchemaField) (payload : List (String × Json)) :
    Except ValidationError Json :=
match schema with
| [] => .ok (.obj payload)
| f :: rest =>
  match payload.lookup f.name with
  | some v =>
    if typeMatches f.type v then runIntake rest payload
    else .error (.typeMismatch f.name)
  | none =>
    if f.required then .error (.missingRequired f.name)
    else runIntake rest payload

/-- The comparison operators of the condition evaluator, in the order
they are tried (two-character operators before their one-character
prefixes). -/
def condOps : List String :=
["==", "!=", ">=", "<=", ">", "<"]

/-- Split `cs` at the first occurrence of `sep`, returning the parts
before and after it. -/
def splitAtSub (sep : List Char) : List Char → Option (List Char × List Char)
| [] => none
| c :: rest =>
  if sep.isPrefixOf (c :: rest) then some ([], (c :: rest).drop sep.length)
  else
    match splitAtSub sep rest with
    | some (l, r) => some (c :: l, r)
    | none => none

/-- Try each operator in turn, splitting the condition string at the
first ` op ` occurrence. -/
def splitOnOp (s : String) : List String → Option (String × String × String)
| [] => none
| op :: rest =>
  match splitAtSub (" " ++ op ++ " ").toList s.toList with
  | some (l, r) => some (⟨l⟩, op, ⟨r⟩)
  | none => splitOnOp s rest

/-- Modelled from the spec (§4.2): parse a condition string of the form
`left op right`; the condition evaluator (backend workflow_engine.py)
is not part of the frontend tree. -/
def parseCondition (s : String) : Option (String × String × String) :=
splitOnOp s condOps

/-- Parse a decimal digit sequence. -/
def digitsToNat? : List Char → Option Nat
| [] => none
| cs => go cs 0
where
  go : List Char → Nat → Option Nat
  | [], acc => some acc
  | c :: rest, acc =>
    if c.isDigit then go rest (acc * 10 + (c.toNat - '0'.toNat))
    else none

/-- Parse an optionally negated decimal integer, the numeric view used
by the condition evaluator. -/
def strToInt? (s : String) : Option Int :=
match s.toList with
| '-' :: rest => (digitsToNat? rest).map fun n => -(n : Int)
| cs => (digitsToNat? cs).map fun n => (n : Int)

/-- Modelled from the spec (§4.2): numeric comparison for resolved
operands that both parse as numbers. -/
def compareNum (a b : Int) : String → Bool
| "==" => a == b
| "!=" => a != b
| ">=" => b ≤ a
| "<=" => a ≤ b
| ">" => b < a
| "<" => a < b
| _ => false

/-- Modelled from the spec (§4.2): text comparison for resolved operands
that do not both parse as numbers, with lexical ordering. -/
def compareStr (a b : String) : String → Bool
| "==" => a == b
| "!=" => a != b
| ">=" => b ≤ a
| "<=" => a ≤ b
| ">" => b < a
| "<" => a < b
| _ => false

/-- Modelled from the spec (§4.2): evaluate a condition string; each side
goes through the Resolver (`resolve`) first, then the operands are
compared numerically when both parse as numbers and as text otherwise. -/
def evalCondition (resolve : String → String) (s : String) : Option Bool :=
match parseCondition s with
| none => none
| some (l, op, r) =>
  let lv := resolve l
  let rv := resolve r
  match strToInt? lv, strToInt? rv with
  | some a, some b => some (compareNum a b op)
  | _, _ => some (compareStr lv rv op)

/-- Concrete stand-in for the JSON.parse builtin, used to instantiate
the parameterised helpers on concrete inputs. -/
def testParse : String → Except String Json :=
fun s => if s = "7" then .ok (.num 7) else .error "bad"

/-- Concrete stand-in for the JSON.stringify builtin. -/
def testStringify : Json → Except String String :=
fun _ => .error "circular"

/-- A concrete workflow used to instantiate the status theorems. -/
def wDraft : Workflow := createWorkflow "users-api" "demo"

/-- A concrete node list entry used to instantiate the frame theorem. -/
def wNodeA : Node :=
{ id := "a", type := "input", position := { x := 0, y := 0 },
  data := { type := "input", label := "A", config := .obj [] } }

/-- A second concrete node with a different id. -/
def wNodeB : Node :=
{ id := "b", type := "output", position := { x := 1, y := 2 },
  data := { type := "output", label := "B", config := .obj [] } }

/-- A concrete block whose label is present but empty, exhibiting the
JS falsy-field behaviour of `blockToNode`. -/
def emptyLabelBlock : Block :=
{ id := "b1", type := "input", label := some "",
  position := some { x := 0, y := 0 }, config := some (.obj []) }

/-- A concrete block with truthy label, position and config. -/
def wBlock : Block :=
{ id := "b2", type := "logic", label := some "Check age",
  position := some { x := 5, y := 7 }, config := some (.obj []) }

/-- A concrete connection with a present, non-empty id. -/
def wConn : Connection :=
{ id := some "e1", source_block_id := "b1", target_block_id := "b2",
  source_handle := none, target_handle := none }

/-- A concrete three-block chain used to instantiate the planner
theorem: intake feeding a transform feeding a respond block. -/
def wBlocks : List PlanBlock :=
[ { id := "in", kind := .intake },
  { id := "tr", kind := .transform },
  { id := "out", kind := .respond } ]

/-- The connections of the concrete chain. -/
def wConns : List PlanConn :=
[ { source := "in", target := "tr" },
  { source := "tr", target := "out" } ]

/-- A rank function witnessing that the concrete chain is acyclic. -/
def wRank : String → Nat :=
fun s => if s = "in" then 0 else if s = "tr" then 1 else 2

/-- A concrete schema used to instantiate the intake theorem. -/
def wSchema : List SchemaField :=
[ { name := "age", type := "number", required := true } ]

/-- A concrete payload matching `wSchema`. -/
def wPayload : List (String × Json) :=
[ ("age", .num 25) ]

end APIBuilder

namespace APIBuilder

/-- Membership of a key in an association list is lookup success. -/
theorem lookup_isSome_iff {β : Type} (l : List (String × β)) (s : String) :
    (l.lookup s).isSome ↔ s ∈ l.map Prod.fst := by
  induction l with
  | nil => simp [List.lookup]
  | cons p rest ih =>
    obtain ⟨k, v⟩ := p
    by_cases h : s = k
    · subst h
      simp [List.lookup]
    · have hb : (s == k) = false := by simp [h]
      simp [List.lookup, hb, ih, h]

/-- C2: the set of block kinds is fixed and closed with exactly the six
variants input, db_query, api_call, logic, transform, output (the
editor-side names of intake, datastore_query, outbound_call,
conditional, transform, respond), and every dispatch table — node
rendering (`nodeTypes`), palette listing (`BLOCK_ORDER` over
`BLOCK_TYPES`), and configuration forms (`configRenderers`) — is keyed
by exactly these six variants and no others. -/
theorem block_kinds_closed :
    BLOCK_TYPES.map Prod.fst = BLOCK_ORDER ∧
    configRenderers.map Prod.fst = BLOCK_ORDER ∧
    nodeTypes.map Prod.fst = BLOCK_ORDER ∧
    BLOCK_ORDER
      = ["input", "db_query", "api_call", "logic", "transform", "output"] ∧
    ∀ s : String,
      ((BLOCK_TYPES.lookup s).isSome ↔ s ∈ BLOCK_ORDER) ∧
      ((configRenderers.lookup s).isSome ↔ s ∈ BLOCK_ORDER) ∧
      ((nodeTypes.lookup s).isSome ↔ s ∈ BLOCK_ORDER) := by
  refine ⟨rfl, rfl, rfl, rfl, fun s => ⟨?_, ?_, ?_⟩⟩ <;>
    rw [lookup_isSome_iff] <;> exact Iff.rfl

/-- C3: the db_query operation select offers exactly the five operations
find, find_one, insert, update, delete, and the rendered configuration
comprises the collection name, the operation and the query filter, with
data rendered exactly for insert and update and limit exactly for find;
the block's default config carries these five keys. -/
theorem db_query_config_spec :
    dbQueryOperationOptions
      = ["find", "find_one", "insert", "update", "delete"] ∧
    (∀ operation : String,
      ((renderDbQueryFields operation).all
        (["collection", "operation", "query", "data", "limit"].contains ·))
        = true) ∧
    (∀ operation : String,
      (["collection", "operation", "query"].all
        ((renderDbQueryFields operation).contains ·)) = true) ∧
    (∀ operation : String,
      (renderDbQueryFields operation).contains "data"
        = ["insert", "update"].contains operation) ∧
    (∀ operation : String,
      (renderDbQueryFields operation).contains "limit"
        = ["find"].contains operation) ∧
    ((BLOCK_TYPES.lookup "db_query").map (fun m => m.defaultConfig.objKeys))
      = some ["collection", "operation", "query", "data", "limit"] := by
  refine ⟨rfl, ?_, ?_, ?_, ?_, rfl⟩ <;> intro operation <;>
    by_cases h1 : ["insert", "update"].contains operation <;>
    by_cases h2 : ["find"].contains operation <;>
    simp [renderDbQueryFields, h1, h2]

/-- C7: a workflow's status is always draft or deployed and every
operation preserves this: deploy sets deployed, undeploy sets draft,
save keeps the status, and creation starts at draft. -/
theorem workflow_status_invariant (w : Workflow) (bs : List Block)
    (cs : List Connection) (n d : String) (hw : statusInvariant w) :
    (handleDeploy w).status = "deployed" ∧
    (handleUndeploy w).status = "draft" ∧
    statusInvariant (handleDeploy w) ∧
    statusInvariant (handleUndeploy w) ∧
    statusInvariant (handleSave w bs cs) ∧
    statusInvariant (createWorkflow n d) :=
  ⟨rfl, rfl, Or.inr rfl, Or.inl rfl, hw, Or.inl rfl⟩

/-- Witness for the status invariant at a concrete draft workflow. -/
theorem workflow_status_invariant_witness :
    (handleDeploy wDraft).status = "deployed" ∧
    (handleUndeploy wDraft).status = "draft" ∧
    statusInvariant (handleDeploy wDraft) ∧
    statusInvariant (handleUndeploy wDraft) ∧
    statusInvariant (handleSave wDraft [] []) ∧
    statusInvariant (createWorkflow "n" "d") :=
  workflow_status_invariant wDraft [] [] "n" "d" (Or.inl rfl)

/-- C9: `onUpdateConfig` changes only the data.config (and, when a label
is given, data.label) of nodes whose id matches; every node with a
different id is unchanged, the list length is kept, and the edge list
is untouched. -/
theorem update_config_frame (nodes : List Node) (edges : List Edge)
    (nodeId : String) (cfg : Json) (lbl : Option String) (i : Nat)
    (node : Node) (hi : nodes[i]? = some node) :
    (applyUpdateConfig ⟨nodes, edges⟩ nodeId cfg lbl).edges = edges ∧
    (onUpdateConfig nodes nodeId cfg lbl).length = nodes.length ∧
    (node.id ≠ nodeId →
      (onUpdateConfig nodes nodeId cfg lbl)[i]? = some node) ∧
    (node.id = nodeId →
      (onUpdateConfig nodes nodeId cfg lbl)[i]? = some
        { node with data :=
          { node.data with
            config := cfg
            label := match lbl with
                     | some l => l
                     | none => node.data.label } }) := by
  refine ⟨rfl, by simp [onUpdateConfig], ?_, ?_⟩
  · intro h
    simp [onUpdateConfig, List.getElem?_map, hi, h]
  · intro h
    simp [onUpdateConfig, List.getElem?_map, hi, h]

/-- Witness for the frame theorem on a concrete two-node list. -/
theorem update_config_frame_witness :
    (applyUpdateConfig ⟨[wNodeA, wNodeB], []⟩ "b" (Json.obj [])
        (some "L")).edges = [] ∧
    (onUpdateConfig [wNodeA, wNodeB] "b" (Json.obj [])
        (some "L")).length = [wNodeA, wNodeB].length ∧
    (wNodeA.id ≠ "b" →
      (onUpdateConfig [wNodeA, wNodeB] "b" (Json.obj [])
        (some "L"))[0]? = some wNodeA) ∧
    (wNodeA.id = "b" →
      (onUpdateConfig [wNodeA, wNodeB] "b" (Json.obj [])
        (some "L"))[0]? = some
        { wNodeA with data :=
          { wNodeA.data with
            config := Json.obj []
            label := match some "L" with
                     | some l => l
                     | none => wNodeA.data.label } }) :=
  update_config_frame [wNodeA, wNodeB] [] "b" (Json.obj []) (some "L")
    0 wNodeA rfl

/-- C10: the JSON helpers are total: `parseJSON` yields the parsed value
on valid JSON and the original string otherwise, never raising, for any
behaviour of the JSON.parse builtin; `toJSON` always yields a string,
never raising, for any behaviour of the JSON.stringify builtin. -/
theorem json_helpers_total :
    (∀ (jsonParse : String → Except String Json) (s : String),
      (∃ v, parseJSON jsonParse s = .ok v) ∧
      (∀ v, jsonParse s = .ok v → parseJSON jsonParse s = .ok v) ∧
      (∀ e, jsonParse s = .error e →
        parseJSON jsonParse s = .ok (.str s))) ∧
    (∀ (jsonStringify : Json → Except String String) (val : Json),
      ∃ out, toJSON jsonStringify val = .ok out) := by
  constructor
  · intro jsonParse s
    refine ⟨?_, ?_, ?_⟩
    · cases h : jsonParse s with
      | ok v => exact ⟨v, by simp [parseJSON, h]⟩
      | error e => exact ⟨.str s, by simp [parseJSON, h]⟩
    · intro v h
      simp [parseJSON, h]
    · intro e h
      simp [parseJSON, h]
  · intro jsonStringify val
    cases val with
    | str s => exact ⟨s, rfl⟩
    | null =>
      cases h : jsonStringify .null with
      | ok s => exact ⟨s, by simp [toJSON, h]⟩
      | error e => exact ⟨jsString .null, by simp [toJSON, h]⟩
    | bool b =>
      cases h : jsonStringify (.bool b) with
      | ok s => exact ⟨s, by simp [toJSON, h]⟩
      | error e => exact ⟨jsString (.bool b), by simp [toJSON, h]⟩
    | num n =>
      cases h : jsonStringify (.num n) with
      | ok s => exact ⟨s, by simp [toJSON, h]⟩
      | error e => exact ⟨jsString (.num n), by simp [toJSON, h]⟩
    | arr xs =>
      cases h : jsonStringify (.arr xs) with
      | ok s => exact ⟨s, by simp [toJSON, h]⟩
      | error e => exact ⟨jsString (.arr xs), by simp [toJSON, h]⟩
    | obj fs =>
      cases h : jsonStringify (.obj fs) with
      | ok s => exact ⟨s, by simp [toJSON, h]⟩
      | error e => exact ⟨jsString (.obj fs), by simp [toJSON, h]⟩

/-- C8 counterexample: a block whose label field is present but holds
the empty string does not round-trip: the JS `||` default replaces the
falsy label, so the returned block's label differs from the original. -/
theorem round_trip_label_cex :
    (nodesToBlocks [blockToNode emptyLabelBlock]).map Block.label
      ≠ [emptyLabelBlock].map Block.label := by
  decide

/-- C8 amended: the round trip between the persisted workflow format and
the canvas format holds for every block whose label is present and
non-empty, whose position is present, and whose config is present and
truthy; and `edgesToConnections` after `connToEdge` preserves a
connection's id (when present and non-empty), source_block_id and
target_block_id. -/
theorem round_trip_canvas (block : Block) (conn : Connection)
    (l : String) (p : Position) (c : Json)
    (hl : block.label = some l) (hl2 : l ≠ "")
    (hp : block.position = some p)
    (hc : block.config = some c) (hc2 : c.truthy = true)
    (cid : String) (hcid : conn.id = some cid) (hcid2 : cid ≠ "") :
    nodesToBlocks [blockToNode block] = [block] ∧
    (edgesToConnections [connToEdge conn]).map Connection.id = [conn.id] ∧
    (edgesToConnections [connToEdge conn]).map Connection.source_block_id
      = [conn.source_block_id] ∧
    (edgesToConnections [connToEdge conn]).map Connection.target_block_id
      = [conn.target_block_id] := by
  obtain ⟨bid, btype, blabel, bpos, bcfg⟩ := block
  obtain ⟨eid, esrc, etgt, esh, eth⟩ := conn
  simp only [Option.some.injEq] at hl hp hc hcid
  subst hl hp hc hcid
  refine ⟨?_, ?_, rfl, rfl⟩
  · simp [nodesToBlocks, blockToNode, orElseStr, orElseJson, orStr,
      hl2, hc2]
  · simp [edgesToConnections, connToEdge, orElseStr, orStr, hcid2]

/-- Witness for the round trip at a concrete block and connection. -/
theorem round_trip_canvas_witness :
    nodesToBlocks [blockToNode wBlock] = [wBlock] ∧
    (edgesToConnections [connToEdge wConn]).map Connection.id
      = [wConn.id] ∧
    (edgesToConnections [connToEdge wConn]).map Connection.source_block_id
      = [wConn.source_block_id] ∧
    (edgesToConnections [connToEdge wConn]).map Connection.target_block_id
      = [wConn.target_block_id] :=
  round_trip_canvas wBlock wConn "Check age" { x := 5, y := 7 } (.obj [])
    rfl (by decide) rfl rfl rfl "e1" rfl (by decide)

/-- Witness for the JSON helper totality at concrete builtin stand-ins. -/
theorem json_helpers_total_witness :
    parseJSON testParse "7" = .ok (.num 7) ∧
    parseJSON testParse "oops" = .ok (.str "oops") ∧
    ∃ out, toJSON testStringify (.obj []) = .ok out :=
  ⟨(json_helpers_total.1 testParse "7").2.1 (.num 7) rfl,
   (json_helpers_total.1 testParse "oops").2.2 "bad" rfl,
   json_helpers_total.2 testStringify (.obj [])⟩

/-- C4: the transform block supports exactly the operation types rename,
pick, set, delete, merge, filter_array: a decoded operation's type tag
is always one of the six, each documented shape decodes to its variant,
and an operation object with any other type tag is rejected. -/
theorem transform_ops_closed :
    (∀ j op, decodeTransformOp j = some op →
      ∃ t, (j.getField "type").bind Json.asStr = some t ∧
        t ∈ transformOpTypes) ∧
    decodeTransformOp (.obj [("type", .str "rename"), ("from", .str "a"),
        ("to", .str "b")]) = some (.rename "a" "b") ∧
    decodeTransformOp (.obj [("type", .str "pick"),
        ("fields", .arr [.str "a", .str "b"])]) = some (.pick ["a", "b"]) ∧
    decodeTransformOp (.obj [("type", .str "set"), ("field", .str "f"),
        ("value", .num 1)]) = some (.set "f" (.num 1)) ∧
    decodeTransformOp (.obj [("type", .str "delete"),
        ("field", .str "f")]) = some (.delete "f") ∧
    decodeTransformOp (.obj [("type", .str "merge"),
        ("with", .obj [])]) = some (.merge (.obj [])) ∧
    decodeTransformOp (.obj [("type", .str "filter_array"),
        ("field", .str "f"), ("predicate", .str "p")])
      = some (.filter_array "f" "p") ∧
    (∀ j t, (j.getField "type").bind Json.asStr = some t →
      t ∉ transformOpTypes → decodeTransformOp j = none) := by
  refine ⟨?_, rfl, rfl, rfl, rfl, rfl, rfl, ?_⟩
  · intro j op h
    cases hx : (j.getField "type").bind Json.asStr with
    | none => simp [decodeTransformOp, hx] at h
    | some t =>
      refine ⟨t, rfl, ?_⟩
      simp only [decodeTransformOp, hx, Option.pure_def,
        Option.bind_eq_bind, Option.some_bind] at h
      split at h
      · simp [transformOpTypes]
      · simp [transformOpTypes]
      · simp [transformOpTypes]
      · simp [transformOpTypes]
      · simp [transformOpTypes]
      · simp [transformOpTypes]
      · exact Option.noConfusion h
  · intro j t hx hmem
    simp only [decodeTransformOp, hx, Option.pure_def,
      Option.bind_eq_bind, Option.some_bind]
    split
    · exact absurd (by simp [transformOpTypes]) hmem
    · exact absurd (by simp [transformOpTypes]) hmem
    · exact absurd (by simp [transformOpTypes]) hmem
    · exact absurd (by simp [transformOpTypes]) hmem
    · exact absurd (by simp [transformOpTypes]) hmem
    · exact absurd (by simp [transformOpTypes]) hmem
    · rfl

/-- Witness for the transform decoder at a concrete delete operation. -/
theorem transform_ops_closed_witness :
    ∃ t, ((Json.obj [("type", Json.str "delete"),
        ("field", Json.str "x")]).getField "type").bind Json.asStr
      = some t ∧ t ∈ transformOpTypes :=
  transform_ops_closed.1 _ (.delete "x") rfl

/-- C5: the intake block's schema is a list of {name, type, required}
entries whose types that ever match a value are exactly string, number,
boolean, array, object; successful validation returns the inbound
payload itself, and validation succeeds whenever every schema field is
either present with a matching type or absent and not required. -/
theorem intake_schema_spec :
    (∀ t v, typeMatches t v = true → t ∈ fieldTypes) ∧
    (∀ schema payload result, runIntake schema payload = .ok result →
      result = .obj payload) ∧
    (∀ schema payload,
      (∀ f ∈ schema,
        match payload.lookup f.name with
        | some v => typeMatches f.type v = true
        | none => f.required = false) →
      runIntake schema payload = .ok (.obj payload)) := by
  refine ⟨?_, ?_, ?_⟩
  · intro t v h
    unfold typeMatches at h
    split at h
    · simp [fieldTypes]
    · simp [fieldTypes]
    · simp [fieldTypes]
    · simp [fieldTypes]
    · simp [fieldTypes]
    · exact Bool.noConfusion h
  · intro schema payload result h
    induction schema with
    | nil =>
      simp only [runIntake, Except.ok.injEq] at h
      exact h.symm
    | cons f rest ih =>
      cases hx : payload.lookup f.name with
      | some v =>
        by_cases ht : typeMatches f.type v = true
        · simp only [runIntake, hx, ht, if_true] at h
          exact ih h
        · simp [runIntake, hx, ht] at h
      | none =>
        by_cases hr : f.required = true
        · simp [runIntake, hx, hr] at h
        · simp only [runIntake, hx] at h
          rw [if_neg hr] at h
          exact ih h
  · intro schema payload hcond
    induction schema with
    | nil => rfl
    | cons f rest ih =>
      have hf := hcond f (List.mem_cons_self f rest)
      cases hx : payload.lookup f.name with
      | some v =>
        rw [hx] at hf
        simp only [runIntake, hx, hf, if_true]
        exact ih fun g hg => hcond g (List.mem_cons_of_mem f hg)
      | none =>
        rw [hx] at hf
        simp only [runIntake, hx]
        rw [if_neg (by simp [hf])]
        exact ih fun g hg => hcond g (List.mem_cons_of_mem f hg)

/-- Witness for intake validation at a concrete schema and payload. -/
theorem intake_schema_spec_witness :
    runIntake wSchema wPayload = .ok (.obj wPayload) :=
  intake_schema_spec.2.2 wSchema wPayload (by
    intro f hf
    simp only [wSchema, List.mem_singleton] at hf
    subst hf
    rfl)

/-- The operator returned by `splitOnOp` comes from the candidate list. -/
theorem splitOnOp_mem (s : String) (ops : List String)
    (l op r : String) (h : splitOnOp s ops = some (l, op, r)) :
    op ∈ ops := by
  induction ops with
  | nil => simp [splitOnOp] at h
  | cons o rest ih =>
    cases hx : splitAtSub (" " ++ o ++ " ").toList s.toList with
    | some lr =>
      obtain ⟨a, b⟩ := lr
      simp only [splitOnOp, hx, Option.some.injEq, Prod.mk.injEq] at h
      exact h.2.1 ▸ List.mem_cons_self o rest
    | none =>
      simp only [splitOnOp, hx] at h
      exact List.mem_cons_of_mem o (ih h)

/-- C6: a conditional block's condition has the form `left op right`
with the operator one of exactly ==, !=, >, <, >=, <=; both sides are
resolved first and compared numerically when both parse as numbers and
as text otherwise; and the logic config form comprises exactly the
condition, true_value and false_value fields. -/
theorem conditional_eval_spec :
    (∀ s l op r, parseCondition s = some (l, op, r) →
      op ∈ ["==", "!=", ">", "<", ">=", "<="]) ∧
    (∀ (resolve : String → String) s l op r a b,
      parseCondition s = some (l, op, r) →
      strToInt? (resolve l) = some a → strToInt? (resolve r) = some b →
      evalCondition resolve s = some (compareNum a b op)) ∧
    (∀ (resolve : String → String) s l op r,
      parseCondition s = some (l, op, r) →
      strToInt? (resolve l) = none →
      evalCondition resolve s
        = some (compareStr (resolve l) (resolve r) op)) ∧
    (∀ (resolve : String → String) s l op r,
      parseCondition s = some (l, op, r) →
      strToInt? (resolve r) = none →
      evalCondition resolve s
        = some (compareStr (resolve l) (resolve r) op)) ∧
    renderLogicFields = ["condition", "true_value", "false_value"] := by
  refine ⟨?_, ?_, ?_, ?_, rfl⟩
  · intro s l op r h
    have hmem := splitOnOp_mem s condOps l op r h
    simp only [condOps, List.mem_cons, List.mem_singleton] at hmem
    simp only [List.mem_cons, List.mem_singleton]
    tauto
  · intro resolve s l op r a b hp ha hb
    simp [evalCondition, hp, ha, hb]
  · intro resolve s l op r hp hl
    cases hr : strToInt? (resolve r) <;>
      simp [evalCondition, hp, hl, hr]
  · intro resolve s l op r hp hr
    cases hl : strToInt? (resolve l) <;>
      simp [evalCondition, hp, hl, hr]

/-- Witness for the condition evaluator at a concrete numeric
comparison. -/
theorem conditional_eval_spec_witness :
    evalCondition (fun x => x) "5 >= 18" = some (compareNum 5 18 ">=") :=
  conditional_eval_spec.2.1 (fun x => x) "5 >= 18" "5" ">=" "18" 5 18
    rfl rfl rfl

/-- A finite list with a transitive irreflexive relation contains an
element with no predecessor in the list. -/
theorem exists_no_pred {α : Type} (r : α → α → Prop)
    (htrans : ∀ a b c, r a b → r b c → r a c) (hirr : ∀ a, ¬ r a a) :
    ∀ l : List α, l ≠ [] → ∃ m ∈ l, ∀ y ∈ l, ¬ r y m := by
  intro l
  induction l with
  | nil => intro h; exact absurd rfl h
  | cons a rest ih =>
    intro _
    by_cases hreste : rest = []
    · subst hreste
      refine ⟨a, List.mem_singleton_self a, ?_⟩
      intro y hy
      rw [List.mem_singleton] at hy
      subst hy
      exact hirr _
    · obtain ⟨m, hm, hmin⟩ := ih hreste
      by_cases ham : r a m
      · refine ⟨a, List.mem_cons_self a rest, ?_⟩
        intro y hy hya
        rcases List.mem_cons.mp hy with hy1 | hy2
        · subst hy1; exact hirr _ hya
        · exact hmin y hy2 (htrans _ _ m hya ham)
      · refine ⟨m, List.mem_cons_of_mem a hm, ?_⟩
        intro y hy hym
        rcases List.mem_cons.mp hy with hy1 | hy2
        · subst hy1; exact ham hym
        · exact hmin y hy2 hym

/-- Characterisation of `ready` as a proposition. -/
theorem ready_iff (conns : List PlanConn) (remaining : List PlanBlock)
    (b : PlanBlock) :
    ready conns remaining b = true ↔
      ∀ c ∈ conns, c.target = b.id →
        ∀ b2 ∈ remaining, b2.id ≠ c.source := by
  unfold ready
  rw [List.all_eq_true]
  constructor
  · intro h c hc htgt b2 hb2
    have hcu := h c hc
    rw [Bool.or_eq_true] at hcu
    rcases hcu with h1 | h1
    · rw [bne_iff_ne] at h1
      exact absurd htgt h1
    · rw [List.all_eq_true] at h1
      have hb := h1 b2 hb2
      rw [bne_iff_ne] at hb
      exact hb
  · intro h c hc
    rw [Bool.or_eq_true]
    by_cases htgt : c.target = b.id
    · right
      rw [List.all_eq_true]
      intro b2 hb2
      rw [bne_iff_ne]
      exact h c hc htgt b2 hb2
    · left
      rw [bne_iff_ne]
      exact htgt

/-- Under acyclicity, a nonempty remaining list always has a ready
block: a block minimal for the reachability relation has no incoming
connection from the remaining blocks. -/
theorem exists_ready (conns : List PlanConn) (R : List PlanBlock)
    (hne : R ≠ []) (hacyc : Acyclic conns) :
    ∃ b ∈ R, ready conns R b = true := by
  have htrans : ∀ a b c, Relation.TransGen (edgeRel conns) a b →
      Relation.TransGen (edgeRel conns) b c →
      Relation.TransGen (edgeRel conns) a c :=
    fun a b c h1 h2 => Relation.TransGen.trans h1 h2
  have hids : R.map PlanBlock.id ≠ [] := by
    intro h
    exact hne (List.map_eq_nil_iff.mp h)
  obtain ⟨m, hm, hmin⟩ := exists_no_pred (Relation.TransGen (edgeRel conns))
    htrans hacyc (R.map PlanBlock.id) hids
  obtain ⟨b, hb, hbid⟩ := List.mem_map.mp hm
  refine ⟨b, hb, (ready_iff conns R b).mpr ?_⟩
  intro c hc htgt b2 hb2 hsrc
  have hedge : edgeRel conns b2.id b.id := ⟨c, hc, hsrc.symm, htgt⟩
  exact hmin b2.id (List.mem_map_of_mem PlanBlock.id hb2)
    (hbid ▸ Relation.TransGen.single hedge)

/-- With fuel at least the number of remaining blocks, Kahn's rounds
succeed on an acyclic graph. -/
theorem kahnAux_ok (conns : List PlanConn) (hacyc : Acyclic conns) :
    ∀ (fuel : Nat) (R : List PlanBlock), R.length ≤ fuel →
      ∃ levels, kahnAux conns fuel R = .ok levels := by
  intro fuel
  induction fuel with
  | zero =>
    intro R hR
    have hnil : R = [] := List.eq_nil_of_length_eq_zero (Nat.le_zero.mp hR)
    subst hnil
    exact ⟨[], rfl⟩
  | succ fuel ih =>
    intro R hR
    cases R with
    | nil => exact ⟨[], rfl⟩
    | cons b rest =>
      obtain ⟨br, hbr, hready⟩ :=
        exists_ready conns (b :: rest) (by simp) hacyc
      have hbrf : br ∈ (b :: rest).filter (ready conns (b :: rest)) :=
        List.mem_filter.mpr ⟨hbr, hready⟩
      have hlev :
          ((b :: rest).filter (ready conns (b :: rest))).isEmpty = false := by
        cases hE : ((b :: rest).filter (ready conns (b :: rest))) with
        | nil => rw [hE] at hbrf; exact absurd hbrf (List.not_mem_nil br)
        | cons x xs => simp [hE]
      have hsplit :
          ((b :: rest).filter (ready conns (b :: rest))).length
            + ((b :: rest).filter
                fun x => !(ready conns (b :: rest) x)).length
            = (b :: rest).length := by
        have hperm := List.filter_append_perm (ready conns (b :: rest))
          (b :: rest)
        have hlen := hperm.length_eq
        rwa [List.length_append] at hlen
      have hpos :
          0 < ((b :: rest).filter (ready conns (b :: rest))).length :=
        List.length_pos.mpr (by
          intro hE
          rw [hE] at hbrf
          exact List.not_mem_nil br hbrf)
      have hlen2 :
          ((b :: rest).filter
            fun x => !(ready conns (b :: rest) x)).length ≤ fuel := by
        have hRlen : (b :: rest).length ≤ fuel + 1 := hR
        omega
      obtain ⟨levels, hlevels⟩ := ih _ hlen2
      refine ⟨((b :: rest).filter (ready conns (b :: rest))).map
        PlanBlock.id :: levels, ?_⟩
      rw [kahnAux]
      simp [hlev, hlevels]

/-- A successful Kahn run emits exactly the remaining block ids. -/
theorem kahnAux_join_perm (conns : List PlanConn) :
    ∀ (fuel : Nat) (R : List PlanBlock) (levels : List (List String)),
      kahnAux conns fuel R = .ok levels →
      levels.flatten.Perm (R.map PlanBlock.id) := by
  intro fuel
  induction fuel with
  | zero =>
    intro R levels h
    cases R with
    | nil =>
      simp only [kahnAux, Except.ok.injEq] at h
      subst h
      simp
    | cons b rest => simp [kahnAux] at h
  | succ fuel ih =>
    intro R levels h
    cases R with
    | nil =>
      simp only [kahnAux, Except.ok.injEq] at h
      subst h
      simp
    | cons b rest =>
      rw [kahnAux] at h
      cases hlev : ((b :: rest).filter (ready conns (b :: rest))).isEmpty with
      | true => rw [hlev] at h; simp at h
      | false =>
        rw [hlev] at h
        simp only [Bool.false_eq_true, if_false] at h
        cases hrec : kahnAux conns fuel
            ((b :: rest).filter fun x => !(ready conns (b :: rest) x)) with
        | error e => rw [hrec] at h; exact Except.noConfusion h
        | ok levels' =>
          rw [hrec] at h
          simp only [Except.ok.injEq] at h
          subst h
          have ihp := ih _ levels' hrec
          have hmapp :
              (((b :: rest).filter (ready conns (b :: rest))).map
                  PlanBlock.id :: levels').flatten.Perm
                ((((b :: rest).filter (ready conns (b :: rest)))
                  ++ ((b :: rest).filter
                    fun x => !(ready conns (b :: rest) x))).map
                  PlanBlock.id) := by
            rw [List.flatten_cons, List.map_append]
            exact ihp.append_left _
          exact hmapp.trans
            ((List.filter_append_perm _ (b :: rest)).map PlanBlock.id)

/-- Within a successful Kahn run, every connection whose endpoints both
appear in levels has its source strictly before its target. -/
theorem kahnAux_edges (conns : List PlanConn) (c : PlanConn)
    (hc : c ∈ conns) :
    ∀ (fuel : Nat) (R : List PlanBlock) (levels : List (List String)),
      kahnAux conns fuel R = .ok levels →
      ∀ i j (hi : i < levels.length) (hj : j < levels.length),
        c.source ∈ levels.get ⟨i, hi⟩ → c.target ∈ levels.get ⟨j, hj⟩ →
        i < j := by
  intro fuel
  induction fuel with
  | zero =>
    intro R levels h i j hi hj hsrc htgt
    cases R with
    | nil =>
      simp only [kahnAux, Except.ok.injEq] at h
      subst h
      exact absurd hi (by simp)
    | cons b rest => simp [kahnAux] at h
  | succ fuel ih =>
    intro R levels h i j hi hj hsrc htgt
    cases R with
    | nil =>
      simp only [kahnAux, Except.ok.injEq] at h
      subst h
      exact absurd hi (by simp)
    | cons b rest =>
      rw [kahnAux] at h
      cases hlev : ((b :: rest).filter (ready conns (b :: rest))).isEmpty with
      | true => rw [hlev] at h; simp at h
      | false =>
        rw [hlev] at h
        simp only [Bool.false_eq_true, if_false] at h
        cases hrec : kahnAux conns fuel
            ((b :: rest).filter fun x => !(ready conns (b :: rest) x)) with
        | error e => rw [hrec] at h; exact Except.noConfusion h
        | ok levels' =>
          rw [hrec] at h
          simp only [Except.ok.injEq] at h
          subst h
          cases j with
          | zero =>
            exfalso
            have htgt0 : c.target ∈
                ((b :: rest).filter (ready conns (b :: rest))).map
                  PlanBlock.id := htgt
            obtain ⟨bt, hbt, hbtid⟩ := List.mem_map.mp htgt0
            have hbtready : ready conns (b :: rest) bt = true :=
              (List.mem_filter.mp hbt).2
            have hprop := (ready_iff conns (b :: rest) bt).mp hbtready
              c hc hbtid.symm
            have hsrcR : c.source ∈ (b :: rest).map PlanBlock.id := by
              cases i with
              | zero =>
                obtain ⟨bs, hbs, hbsid⟩ := List.mem_map.mp
                  (hsrc : c.source ∈
                    ((b :: rest).filter (ready conns (b :: rest))).map
                      PlanBlock.id)
                exact List.mem_map.mpr
                  ⟨bs, List.mem_of_mem_filter hbs, hbsid⟩
              | succ i' =>
                have hi' : i' < levels'.length := Nat.lt_of_succ_lt_succ hi
                have hjoin : c.source ∈ levels'.flatten :=
                  List.mem_flatten.mpr ⟨levels'.get ⟨i', hi'⟩,
                    List.get_mem levels' i' hi', hsrc⟩
                have hperm := kahnAux_join_perm conns fuel _ levels' hrec
                obtain ⟨bs, hbs, hbsid⟩ := List.mem_map.mp
                  (hperm.mem_iff.mp hjoin)
                exact List.mem_map.mpr
                  ⟨bs, List.mem_of_mem_filter hbs, hbsid⟩
            obtain ⟨bs, hbsmem, hbsid⟩ := List.mem_map.mp hsrcR
            exact hprop bs hbsmem hbsid
          | succ j' =>
            cases i with
            | zero => exact Nat.succ_pos j'
            | succ i' =>
              have hi' : i' < levels'.length := Nat.lt_of_succ_lt_succ hi
              have hj' : j' < levels'.length := Nat.lt_of_succ_lt_succ hj
              exact Nat.succ_lt_succ
                (ih _ levels' hrec i' j' hi' hj' hsrc htgt)

/-- A rank function increasing along every connection shows acyclicity. -/
theorem acyclic_of_rank (conns : List PlanConn) (rank : String → Nat)
    (h : ∀ c ∈ conns, rank c.source < rank c.target) : Acyclic conns := by
  intro x hx
  have key : ∀ a b, Relation.TransGen (edgeRel conns) a b →
      rank a < rank b := by
    intro a b hab
    induction hab with
    | single hstep =>
      obtain ⟨c, hcm, h1, h2⟩ := hstep
      have hcr := h c hcm
      rw [h1, h2] at hcr
      exact hcr
    | tail _ hstep ihs =>
      obtain ⟨c, hcm, h1, h2⟩ := hstep
      have hcr := h c hcm
      rw [h1, h2] at hcr
      exact lt_trans ihs hcr
  exact absurd (key x x hx) (lt_irrefl _)

/-- C1: for every acyclic workflow graph — blocks with unique ids and
connections among those blocks — containing a respond-kind block (in
particular, a reachable one), `plan` returns levels whose concatenation
contains each block id exactly once and in which every connection's
source level index is strictly less than its target level index. -/
theorem plan_correct (blocks : List PlanBlock) (conns : List PlanConn)
    (hnodup : (blocks.map PlanBlock.id).Nodup)
    (hwf : ∀ c ∈ conns, c.source ∈ blocks.map PlanBlock.id ∧
      c.target ∈ blocks.map PlanBlock.id)
    (hacyc : Acyclic conns)
    (hresp : ∃ b ∈ blocks, b.kind = Kind.respond) :
    ∃ levels, plan blocks conns = .ok levels ∧
      levels.flatten.Perm (blocks.map PlanBlock.id) ∧
      (∀ b ∈ blocks, levels.flatten.count b.id = 1) ∧
      (∀ i j (hi : i < levels.length) (hj : j < levels.length),
        ∀ c ∈ conns, c.source ∈ levels.get ⟨i, hi⟩ →
          c.target ∈ levels.get ⟨j, hj⟩ → i < j) := by
  obtain ⟨levels, hlv⟩ := kahnAux_ok conns hacyc blocks.length blocks le_rfl
  have hcond1 : (conns.all fun c =>
      (blocks.any fun b => b.id == c.source)
        && blocks.any fun b => b.id == c.target) = true := by
    rw [List.all_eq_true]
    intro c hcm
    rw [Bool.and_eq_true, List.any_eq_true, List.any_eq_true]
    obtain ⟨h1, h2⟩ := hwf c hcm
    obtain ⟨b1, hb1, hb1id⟩ := List.mem_map.mp h1
    obtain ⟨b2, hb2, hb2id⟩ := List.mem_map.mp h2
    exact ⟨⟨b1, hb1, by rw [beq_iff_eq]; exact hb1id⟩,
           ⟨b2, hb2, by rw [beq_iff_eq]; exact hb2id⟩⟩
  have hcond2 : (blocks.any fun b => decide (b.kind = Kind.respond))
      = true := by
    rw [List.any_eq_true]
    obtain ⟨b, hb, hk⟩ := hresp
    exact ⟨b, hb, by rw [decide_eq_true_iff]; exact hk⟩
  have hplan : plan blocks conns = .ok levels := by
    unfold plan
    rw [hcond1, hcond2]
    simpa using hlv
  have hperm := kahnAux_join_perm conns blocks.length blocks levels hlv
  refine ⟨levels, hplan, hperm, ?_, ?_⟩
  · intro b hb
    rw [hperm.count_eq b.id]
    exact List.count_eq_one_of_mem hnodup
      (List.mem_map_of_mem PlanBlock.id hb)
  · intro i j hi hj c hcm hsrc htgt
    exact kahnAux_edges conns c hcm blocks.length blocks levels hlv
      i j hi hj hsrc htgt

/-- Witness for the planner on the concrete three-block chain. -/
theorem plan_correct_witness :
    ∃ levels, plan wBlocks wConns = .ok levels ∧
      levels.flatten.Perm (wBlocks.map PlanBlock.id) ∧
      (∀ b ∈ wBlocks, levels.flatten.count b.id = 1) ∧
      (∀ i j (hi : i < levels.length) (hj : j < levels.length),
        ∀ c ∈ wConns, c.source ∈ levels.get ⟨i, hi⟩ →
          c.target ∈ levels.get ⟨j, hj⟩ → i < j) :=
  plan_correct wBlocks wConns (by decide) (by decide)
    (acyclic_of_rank wConns wRank (by decide)) (by decide)

end APIBuilder
